import Mathlib

/-!
Verification of the MaterialSearch scan/search core: a shallow embedding of
the repository source (src/search.py, src/crud.py, src/utils.py, src/main.py)
together with theorems settling the frozen behavioural claims.

Conventions of the embedding:
* Python integers are modelled as `Nat`/`Int`, floats as `ℝ` (exact real
  arithmetic), byte strings as `List Nat`.
* Fallible Python code (exceptions) is modelled with `Except`/`Option`.
* The relational store is modelled as in-memory lists of records; the
  SQLAlchemy session is explicit state passing.
* Library calls whose code is not part of the repository (numpy reshape,
  functools.lru_cache, base64) and repository modules absent from src/
  (process_assets.py, some crud helpers) are modelled from their documented
  contract in the spec; each such definition carries a doc comment saying so.
-/

namespace MaterialSearch

/-! ## Segment merging: `get_index_pairs` (src/search.py lines 127-147) -/

/-- The index-collecting loop of `get_index_pairs`:
`for i in range(len(scores)): if scores[i]: indexes.append(i)`,
with the running index made explicit.  The truthiness test on a score is a
parameter so the same function serves boolean match flags and optional
float scores. -/
def indexesFrom {α : Type} (truthy : α → Bool) : Nat → List α → List Nat
  | _, [] => []
  | i, s :: rest =>
    if truthy s then i :: indexesFrom truthy (i + 1) rest
    else indexesFrom truthy (i + 1) rest

/-- The ascending list of indices of matched frames. -/
def indexesOf {α : Type} (truthy : α → Bool) (scores : List α) : List Nat :=
  indexesFrom truthy 0 scores

/-- The merging loop of `get_index_pairs` after the first matched index was
taken as the initial `start_index`: `start` is the current run start,
`prev` the previously seen matched index (`indexes[i-1]` in the source);
a gap `indexes[i] - indexes[i-1] > 2` closes the current run.  The final
`result.append((start_index, indexes[-1]))` is the base case. -/
def runsAux : Nat → Nat → List Nat → List (Nat × Nat)
  | start, prev, [] => [(start, prev)]
  | start, prev, i :: rest =>
    if i - prev > 2 then (start, prev) :: runsAux i i rest
    else runsAux start i rest

/-- The function `get_index_pairs` from src/search.py: collect matched indices, then merge
them into `(start_index, end_index)` pairs, a gap of more than 2 starting a
new pair.  An empty index list (sentinel `start_index == -1` survives the
loop) yields `[]`. -/
def get_index_pairs {α : Type} (truthy : α → Bool) (scores : List α) :
    List (Nat × Nat) :=
  match indexesOf truthy scores with
  | [] => []
  | i :: rest => runsAux i i rest

/-- Spec-side formalisation of the run decomposition (from the words of the
spec, to be compared with `get_index_pairs`): group an ascending index list
so that two consecutive indices share a group exactly when their gap is at
most 2. -/
def gapGroups : List Nat → List (List Nat)
  | [] => []
  | i :: rest =>
    match gapGroups rest with
    | [] => [[i]]
    | [] :: gs => [i] :: gs
    | (j :: g) :: gs =>
      if j - i ≤ 2 then (i :: j :: g) :: gs else [i] :: (j :: g) :: gs

/-- Spec-side runs: the `(first, last)` pair of every gap-≤-2 group. -/
def specRuns (l : List Nat) : List (Nat × Nat) :=
  (gapGroups l).map (fun g => (g.headD 0, g.getLastD 0))

/-! ## Asset Store records and crud operations (src/crud.py) -/

/-- A row of the `Image` table: numeric id, absolute path, last-modified
time (seconds), feature blob.  The feature payload type is a parameter:
crud code never inspects it. -/
structure ImageRec (α : Type) where
  id : Int
  path : String
  modify_time : Nat
  feature : α
  deriving DecidableEq, Repr

/-- A row of the `Video` table: one sampled frame of a video file. -/
structure VideoRec (α : Type) where
  path : String
  frame_time : Int
  modify_time : Nat
  feature : α
  deriving DecidableEq, Repr

/-- The function `delete_image_if_outdated` (src/crud.py lines 24-47).  The session is the
image table `store`; `fs` is the filesystem modify-time oracle
(`os.path.getmtime`) — note the source shadows its `modify_time` parameter
with the freshly read file time before comparing.  `session.delete(record)`
removes the row found by `.first()`.  Returns the boolean result and the
table after commit. -/
def delete_image_if_outdated {α : Type} (fs : String → Nat)
    (store : List (ImageRec α)) (path : String) (_modify_time : Nat) :
    Bool × List (ImageRec α) :=
  match store.find? (fun r => r.path == path) with
  | none => (false, store)
  | some record =>
    let modify_time := fs path
    if record.modify_time = modify_time then (true, store)
    else (false, store.eraseP (fun r => r.path == path))

/-- The function `delete_video_if_outdated` (src/crud.py lines 50-71).  Compares the first
row for `path` against the `modify_time` argument; on mismatch deletes every
row of that path (`filter_by(path=path).delete()`). -/
def delete_video_if_outdated {α : Type} (store : List (VideoRec α))
    (path : String) (modify_time : Nat) : Bool × List (VideoRec α) :=
  match store.find? (fun r => r.path == path) with
  | none => (false, store)
  | some record =>
    if record.modify_time = modify_time then (true, store)
    else (false, store.filter (fun r => !(r.path == path)))

/-- The joint store state handled by `delete_record_if_not_exist`. -/
structure StoreState (α : Type) where
  images : List (ImageRec α)
  videos : List (VideoRec α)
  deriving DecidableEq, Repr

/-- The function `delete_record_if_not_exist` (src/crud.py lines 102-115): delete every
Image row whose path is not in `assets`, and — via the distinct-path loop —
every Video row whose path is not in `assets`; net effect on each table is a
filter by membership of the path in `assets`. -/
def delete_record_if_not_exist {α : Type} (assets : List String)
    (s : StoreState α) : StoreState α :=
  { images := s.images.filter (fun r => r.path ∈ assets)
    videos := s.videos.filter (fun r => r.path ∈ assets) }

/-- Modelled from the spec: `crud.get_image_features_by_id` is called from
src/search.py but absent from src/crud.py; the Asset Store contract says
`get_image_feature(id) -> feature?`: the stored Image feature for that id,
or nothing when no such record exists. -/
def get_image_features_by_id {α : Type} (store : List (ImageRec α))
    (img_id : Int) : Option α :=
  (store.find? (fun r => r.id == img_id)).map (fun r => r.feature)

/-- Modelled from the spec: `crud.is_video_exist` is called from src/main.py
and src/fastapi_main.py but absent from src/crud.py; it reports whether some
Video record has exactly the given path. -/
def is_video_exist {α : Type} (store : List (VideoRec α)) (path : String) :
    Bool :=
  store.any (fun r => r.path == path)

/-! ## Python dynamic values: the `int(img_id_or_path)` dispatch -/

/-- An argument that is either a Python int or a Python string. -/
inductive PyVal : Type
  | int : Int → PyVal
  | str : String → PyVal
  deriving DecidableEq, Repr

/-- Python `int(s)` on a string: an optional sign followed by at least one digit
(surrounding whitespace ignored); anything else raises `ValueError`,
modelled as `none`. -/
def pyParseIntDigits : List Char → Option Nat
  | [] => none
  | [c] => if c.isDigit then some (c.toNat - '0'.toNat) else none
  | c :: rest =>
    if c.isDigit then
      (pyParseIntDigits rest).map
        (fun n => (c.toNat - '0'.toNat) * 10 ^ rest.length + n)
    else none

/-- Python `int(x)` for an int-or-string argument. -/
def pyTryInt : PyVal → Option Int
  | .int n => some n
  | .str s =>
    let chars := s.data.dropWhile (fun c => c = ' ')
    let chars := (chars.reverse.dropWhile (fun c => c = ' ')).reverse
    match chars with
    | '-' :: rest => (pyParseIntDigits rest).map (fun n => -(n : Int))
    | '+' :: rest => (pyParseIntDigits rest).map (fun n => (n : Int))
    | rest => (pyParseIntDigits rest).map (fun n => (n : Int))

/-- Uncaught Python exceptions that the embedded code can raise. -/
inductive PyError : Type
  | unboundLocalError
  | valueError (msg : String)
  deriving DecidableEq, Repr

/-! ## Query cache (src/search.py lines 17-27 and the lru decorators)

`functools.lru_cache` is standard-library code, so its behaviour is
modelled from the spec: memoisation keyed by the full argument tuple,
bounded capacity, least-recently-used eviction. -/

/-- Modelled from the spec: the state of one lru cache — the key/value
pairs, most recently used first. -/
structure LruCache (κ ν : Type) where
  entries : List (κ × ν)
  deriving DecidableEq, Repr

/-- Cache lookup by exact argument-tuple equality. -/
def lruLookup {κ ν : Type} [DecidableEq κ] (c : LruCache κ ν) (k : κ) :
    Option ν :=
  (c.entries.find? (fun e => decide (e.1 = k))).map (fun e => e.2)

/-- Modelled from the spec: one call of an lru-cached function `f` with
capacity `cap`.  A hit returns the cached value (no recomputation) and
refreshes the entry to most-recently-used; a miss computes `f k`, inserts
it in front and evicts from the least-recently-used end down to capacity.
Returns (value, new cache state, whether `f` was invoked). -/
def memoCall {κ ν : Type} [DecidableEq κ] (f : κ → ν) (cap : Nat)
    (c : LruCache κ ν) (k : κ) : ν × LruCache κ ν × Bool :=
  match lruLookup c k with
  | some v => (v, ⟨(k, v) :: c.entries.filter (fun e => !decide (e.1 = k))⟩, false)
  | none =>
    let v := f k
    (v, ⟨((k, v) :: c.entries.filter (fun e => !decide (e.1 = k))).take cap⟩, true)

/-- A cache stores only values actually computed by `f` for their own key. -/
def LruWF {κ ν : Type} (f : κ → ν) (c : LruCache κ ν) : Prop :=
  ∀ e ∈ c.entries, e.2 = f e.1

/-- The six memoised search functions of src/search.py each own one cache. -/
structure SearchCaches (κ ν : Type) where
  image_by_text : LruCache κ ν
  image_by_image : LruCache κ ν
  image_file : LruCache κ ν
  video_by_text : LruCache κ ν
  video_by_image : LruCache κ ν
  video_file : LruCache κ ν
  deriving DecidableEq, Repr

/-- The function `clean_cache` (src/search.py lines 17-27): `cache_clear()` on every one
of the six memoised search functions. -/
def clean_cache {κ ν : Type} (_c : SearchCaches κ ν) : SearchCaches κ ν :=
  ⟨⟨[]⟩, ⟨[]⟩, ⟨[]⟩, ⟨[]⟩, ⟨[]⟩, ⟨[]⟩⟩

/-! ## base64 and the video-retrieval endpoint (src/main.py lines 240-253,
src/fastapi_main.py lines 233-245) -/

/-- Modelled from the spec: the urlsafe base64 alphabet value of a
character (`base64.urlsafe_b64decode` translates `-`/`_` to `+`/`/` and
decodes with the standard alphabet). -/
def b64CharVal (c : Char) : Option Nat :=
  if 'A' ≤ c ∧ c ≤ 'Z' then some (c.toNat - 'A'.toNat)
  else if 'a' ≤ c ∧ c ≤ 'z' then some (c.toNat - 'a'.toNat + 26)
  else if '0' ≤ c ∧ c ≤ '9' then some (c.toNat - '0'.toNat + 52)
  else if c = '-' then some 62
  else if c = '_' then some 63
  else none

/-- Modelled from the spec: decode base64 four-character groups into bytes;
`=` padding is accepted only at the end; a trailing group of the wrong
shape is a `binascii.Error` (`none`). -/
def b64DecodeGroups : List Char → Option (List Nat)
  | [] => some []
  | a :: b :: c :: d :: rest => do
    let va ← b64CharVal a
    let vb ← b64CharVal b
    if c = '=' then
      if d = '=' ∧ rest = [] then pure [va * 4 + vb / 16] else none
    else do
      let vc ← b64CharVal c
      if d = '=' then
        if rest = [] then pure [va * 4 + vb / 16, vb % 16 * 16 + vc / 4]
        else none
      else do
        let vd ← b64CharVal d
        let tail ← b64DecodeGroups rest
        pure ([va * 4 + vb / 16, vb % 16 * 16 + vc / 4, vc % 4 * 64 + vd] ++ tail)
  | _ => none

/-- Modelled from the spec: `base64.urlsafe_b64decode` — characters outside
the alphabet and padding are discarded (binascii default), then groups are
decoded; an ill-formed remainder raises, modelled as `none`. -/
def urlsafe_b64decode (s : String) : Option (List Nat) :=
  b64DecodeGroups (s.data.filter (fun ch => (b64CharVal ch).isSome || ch = '='))

/-- The observable outcome of the `api_get_video` endpoint. -/
inductive HttpResponse : Type
  | notFound
  | fileResponse (path : List Nat)
  | serverError
  deriving DecidableEq, Repr

/-- The endpoint `api_get_video` (src/main.py lines 240-253; the fastapi variant in
src/fastapi_main.py lines 233-245 differs only in response plumbing):
base64-urlsafe-decode the URL parameter, answer 404 unless the decoded
path is the path of some Video record (`crud.is_video_exist`), else serve
that file.  Stored paths appear here as their UTF-8 byte encodings, which
is lossless; a decode failure propagates as an unhandled error (500). -/
def api_get_video (videoPathsBytes : List (List Nat)) (video_path : String) :
    HttpResponse :=
  match urlsafe_b64decode video_path with
  | none => .serverError
  | some path =>
    if path ∈ videoPathsBytes then .fileResponse path else .notFound

/-! ## Numeric primitives: softmax (src/utils.py lines 52-60), cosine
scoring (process_assets.py, absent from src/, modelled from the spec) -/

/-- The function `softmax` (src/utils.py): `np.exp(x) / np.sum(np.exp(x))`, elementwise
over the score list. -/
noncomputable def softmax (x : List ℝ) : List ℝ :=
  let exp_scores := x.map Real.exp
  exp_scores.map (fun e => e / exp_scores.sum)

/-- Dot product of two feature vectors. -/
def dotf (a b : List ℝ) : ℝ := (List.zipWith (fun x y => x * y) a b).sum

/-- Euclidean norm of a feature vector. -/
noncomputable def vnorm (a : List ℝ) : ℝ :=
  Real.sqrt ((a.map (fun x => x * x)).sum)

/-- Modelled from the spec: cosine similarity of two feature vectors. -/
noncomputable def cosine (a b : List ℝ) : ℝ := dotf a b / (vnorm a * vnorm b)

/-- Whether the optional negative constraint keeps candidate `f`. -/
noncomputable def negSideOk (neg : Option (List ℝ)) (f : List ℝ) (nt : ℝ) :
    Bool :=
  match neg with
  | none => true
  | some n => decide (cosine n f * 100 ≤ nt)

/-- Modelled from the spec: `match_batch` from process_assets.py (absent
from src/): per candidate, `pos_score = cosine(positive, candidate) * 100`;
the candidate is kept with that score iff `pos_score >= positive_threshold`
and (no negative vector, or `neg_score <= negative_threshold`); a dropped
candidate is represented as no score (`none`), not zero. -/
noncomputable def match_batch (pos : List ℝ) (neg : Option (List ℝ))
    (features : List (List ℝ)) (pt nt : ℝ) : List (Option ℝ) :=
  features.map (fun f =>
    let ps := cosine pos f * 100
    if decide (pt ≤ ps) && negSideOk neg f nt then some ps else none)

/-- Python truthiness of an optional score (`if not scores[i]: continue`):
`None` and `0.0` are falsy. -/
noncomputable def pyTruthy (s : Option ℝ) : Bool :=
  match s with
  | none => false
  | some v => decide (¬ v = 0)

/-- The scores that survive the keep loop and feed the softmax. -/
noncomputable def keptScores (scores : List (Option ℝ)) : List ℝ :=
  (scores.filter pyTruthy).filterMap id

/-- Modelled from the spec/numpy: `.reshape(rows, -1)` resolving the
unknown dimension of an array of `size` elements; numpy raises a
`ValueError` when the known dimension product is zero or does not divide
the size ("cannot reshape array of size 0 into shape (0,newaxis)"). -/
def numpyReshapeUnknown (size rows : Nat) : Except String Nat :=
  if rows = 0 then .error "cannot reshape array of size 0"
  else if size % rows = 0 then .ok (size / rows)
  else .error "cannot reshape array"

/-! ## The search pipeline (src/search.py) -/

/-- Default thresholds from src/config.py lines 143-145. -/
def POSITIVE_THRESHOLD : ℝ := 10

/-- Default negative threshold (src/config.py line 144). -/
def NEGATIVE_THRESHOLD : ℝ := 10

/-- Default image-search threshold (src/config.py line 145). -/
def IMAGE_THRESHOLD : ℝ := 85

/-- Default search-cache capacity (src/config.py line 141). -/
def CACHE_SIZE : Nat := 64

/-- One entry of a `search_image_by_feature` result list. -/
structure ImgResult where
  url : String
  path : String
  score : ℝ
  softmax_score : ℝ

/-- Insertion step of the descending sort by raw score
(`sorted(..., key=lambda x: x.score, reverse=True)`). -/
noncomputable def insertByScoreDesc {β : Type} (key : β → ℝ) (x : β) :
    List β → List β
  | [] => [x]
  | y :: rest =>
    if decide (key y ≤ key x) then x :: y :: rest
    else y :: insertByScoreDesc key x rest

/-- Sort a result list by raw score, highest first. -/
noncomputable def sortByScoreDesc {β : Type} (key : β → ℝ) (l : List β) :
    List β :=
  l.foldr (insertByScoreDesc key) []

/-- The function `search_image_by_feature` (src/search.py lines 30-78).  The Asset Store
session read yields `(ids, paths, features)` — here the image table
`store`.  The source then runs
`np.frombuffer(b"".join(features)).reshape(len(features), -1)` BEFORE the
`len(ids) == 0` early return; the reshape with unknown dimension is the
fallible `numpyReshapeUnknown` (4 bytes per float32, so the float count is
the summed feature lengths).  Then: batch match, keep truthy scores,
softmax over the kept scores, build `{url, path, score, softmax_score}`
rows and sort them descending by raw score. -/
noncomputable def search_image_by_feature (store : List (ImageRec (List ℝ)))
    (positive_feature : List ℝ) (negative_feature : Option (List ℝ))
    (positive_threshold negative_threshold : ℝ) :
    Except String (List ImgResult) :=
  let rawFeatures := store.map (fun r => r.feature)
  match numpyReshapeUnknown (rawFeatures.map List.length).sum
      rawFeatures.length with
  | .error e => .error e
  | .ok _ =>
    if store.length = 0 then .ok []
    else
      let scores := match_batch positive_feature negative_feature rawFeatures
        positive_threshold negative_threshold
      let kept := (store.zip scores).filter (fun p => pyTruthy p.2)
      let scores_list := keptScores scores
      let softmax_scores := softmax scores_list
      let return_list := (kept.zip softmax_scores).map (fun q =>
        { url := "api/get_image/" ++ toString q.1.1.id
          path := q.1.1.path
          score := (q.1.2).getD 0
          softmax_score := q.2 : ImgResult })
      .ok (sortByScoreDesc (fun r => r.score) return_list)

/-- Python `int()` truncates toward zero. -/
def pyInt (q : ℚ) : Int := if q < 0 then ⌈q⌉ else ⌊q⌋

/-- The function `get_video_range` (src/search.py lines 150-163): start time
`int((frame_times[start_index] + frame_times[start_index - 1]) / 2)` when
a preceding frame exists, else the frame time itself; end time
`int((frame_times[end_index] + frame_times[end_index + 1]) / 2 + 0.5)`
when `end_index < len(scores) - 1`, else the frame time itself.  Only the
length of `scores` is consulted. -/
def get_video_range {α : Type} (start_index end_index : Nat)
    (scores : List α) (frame_times : List Int) : Int × Int :=
  let ft : Nat → Int := fun i => frame_times.getD i 0
  let start_time : Int :=
    if 0 < start_index then
      pyInt (((ft start_index + ft (start_index - 1) : Int) : ℚ) / 2)
    else ft start_index
  let end_time : Int :=
    if end_index < scores.length - 1 then
      pyInt (((ft end_index + ft (end_index + 1) : Int) : ℚ) / 2 + 1 / 2)
    else ft end_index
  (start_time, end_time)

/-- Modelled from the spec: the raw score of a run is the maximum score of its
member frames (`score = max(scores[start_index:end_index+1])`); dropped
in-run frames carry no score and do not participate. -/
noncomputable def runMaxScore (slice : List (Option ℝ)) : ℝ :=
  match slice.filterMap id with
  | [] => 0
  | v :: rest => rest.foldl max v

/-- One reconstructed video segment before result formatting. -/
structure Segment where
  path : String
  score : ℝ
  start_time : Int
  end_time : Int

/-- One entry of a `search_video_by_feature` result list. -/
structure VidResult where
  path : String
  score : ℝ
  start_time : Int
  end_time : Int
  softmax_score : ℝ

/-- The per-video body of the `search_video_by_feature` loop
(src/search.py lines 184-203): fetch the ordered frames of one path,
reshape the joined feature blobs, batch-match, merge matched indices into
runs and convert each run into a scored time segment. -/
noncomputable def videoSegments (pos : List ℝ) (neg : Option (List ℝ))
    (pt nt : ℝ) (path : String) (frames : List (Int × List ℝ)) :
    Except String (List Segment) :=
  let frame_times := frames.map (fun fr => fr.1)
  let rawFeatures := frames.map (fun fr => fr.2)
  match numpyReshapeUnknown (rawFeatures.map List.length).sum
      rawFeatures.length with
  | .error e => .error e
  | .ok _ =>
    let scores := match_batch pos neg rawFeatures pt nt
    .ok ((get_index_pairs pyTruthy scores).map (fun pr =>
      let range := get_video_range pr.1 pr.2 scores frame_times
      { path := path
        score := runMaxScore ((scores.drop pr.1).take (pr.2 - pr.1 + 1))
        start_time := range.1
        end_time := range.2 : Segment }))

/-- The function `search_video_by_feature` (src/search.py lines 166-221): iterate the
distinct video paths, collect all segments, softmax over all their raw
scores globally, then sort descending by raw score. -/
noncomputable def search_video_by_feature
    (vstore : List (String × List (Int × List ℝ))) (pos : List ℝ)
    (neg : Option (List ℝ)) (pt nt : ℝ) : Except String (List VidResult) :=
  match vstore.mapM (fun pv => videoSegments pos neg pt nt pv.1 pv.2) with
  | .error e => .error e
  | .ok segLists =>
    let data_list := segLists.flatten
    let scores_list := data_list.map (fun s => s.score)
    let softmax_scores := softmax scores_list
    let return_list := (data_list.zip softmax_scores).map (fun q =>
      { path := q.1.path
        score := q.1.score
        start_time := q.1.start_time
        end_time := q.1.end_time
        softmax_score := q.2 : VidResult })
    .ok (sortByScoreDesc (fun r => r.score) return_list)

/-- The function `search_image_by_image` (src/search.py lines 103-124).
`try: img_id = int(img_id_or_path) except ValueError: img_path = ...` —
on the exception path `img_id` is never assigned, so the following
`if img_id:` raises `UnboundLocalError`; the same happens at
`elif img_path:` when the argument parsed as the int `0`.  For a nonzero
id the stored feature is fetched (empty/missing → `return []`), then the
search is delegated to `search_image_by_feature` with no negative
feature. -/
noncomputable def search_image_by_image (store : List (ImageRec (List ℝ)))
    (_process_image : String → List ℝ) (img_id_or_path : PyVal)
    (threshold : ℝ) : Except PyError (List ImgResult) :=
  match pyTryInt img_id_or_path with
  | none => .error .unboundLocalError
  | some img_id =>
    if img_id = 0 then .error .unboundLocalError
    else
      match get_image_features_by_id store img_id with
      | none => .ok []
      | some features =>
        if features.isEmpty then .ok []
        else
          match search_image_by_feature store features none threshold
              NEGATIVE_THRESHOLD with
          | .ok l => .ok l
          | .error e => .error (.valueError e)

/-- The function `search_video_by_image` (src/search.py lines 246-267): identical
id-or-path dispatch (with the same unbound locals), delegating to
`search_video_by_feature` with no negative feature. -/
noncomputable def search_video_by_image
    (vstore : List (String × List (Int × List ℝ)))
    (istore : List (ImageRec (List ℝ))) (_process_image : String → List ℝ)
    (img_id_or_path : PyVal) (threshold : ℝ) :
    Except PyError (List VidResult) :=
  match pyTryInt img_id_or_path with
  | none => .error .unboundLocalError
  | some img_id =>
    if img_id = 0 then .error .unboundLocalError
    else
      match get_image_features_by_id istore img_id with
      | none => .ok []
      | some feature =>
        if feature.isEmpty then .ok []
        else
          match search_video_by_feature vstore feature none threshold
              NEGATIVE_THRESHOLD with
          | .ok l => .ok l
          | .error e => .error (.valueError e)

/-! # Theorems -/

/-- Every group produced by `gapGroups` on a cons list starts with the head
element (and is in particular nonempty). -/
theorem gapGroups_cons_shape (i : Nat) (rest : List Nat) :
    ∃ g gs, gapGroups (i :: rest) = (i :: g) :: gs := by
  cases h : gapGroups rest with
  | nil => exact ⟨[], [], by simp [gapGroups, h]⟩
  | cons g0 gs =>
    cases g0 with
    | nil => exact ⟨[], gs, by simp [gapGroups, h]⟩
    | cons j g =>
      by_cases hj : j - i ≤ 2
      · exact ⟨j :: g, gs, by simp [gapGroups, h, hj]⟩
      · exact ⟨[], (j :: g) :: gs, by simp [gapGroups, h, hj]⟩

/-- The merging loop agrees with the spec-side grouping: running `runsAux`
with current run start `start` and previous index `prev` produces the pair
`(start, last of the first group)` followed by the `(first, last)` pairs of
the remaining groups of `gapGroups (prev :: rest)`. -/
theorem runsAux_eq_spec (rest : List Nat) :
    ∀ (start prev : Nat) (g : List Nat) (gs : List (List Nat)),
      gapGroups (prev :: rest) = (prev :: g) :: gs →
      runsAux start prev rest =
        (start, (prev :: g).getLastD 0) ::
          gs.map (fun h => (h.headD 0, h.getLastD 0)) := by
  induction rest with
  | nil =>
    intro start prev g gs h
    simp only [gapGroups] at h
    obtain ⟨hg, hgs⟩ : prev :: g = [prev] ∧ gs = [] := by
      constructor
      · exact (List.cons.injEq _ _ _ _ ▸ h).1.symm
      · exact ((List.cons.injEq _ _ _ _).mp h).2.symm
    rw [hg, hgs]
    simp [runsAux]
  | cons i rest2 ih =>
    intro start prev g gs h
    obtain ⟨g1, gs1, hshape⟩ := gapGroups_cons_shape i rest2
    by_cases hle : i - prev ≤ 2
    · have hgg : gapGroups (prev :: i :: rest2) = (prev :: i :: g1) :: gs1 := by
        conv_lhs => rw [gapGroups, hshape]
        simp [hle]
      rw [hgg] at h
      obtain ⟨h1, h2⟩ := (List.cons.injEq _ _ _ _).mp h
      have hg : g = i :: g1 := ((List.cons.injEq _ _ _ _).mp h1).2.symm
      have hprev : ¬ i - prev > 2 := by omega
      rw [hg, ← h2]
      simp only [runsAux, if_neg hprev]
      rw [ih start i g1 gs1 hshape]
      simp [List.getLastD_cons]
    · have hgg : gapGroups (prev :: i :: rest2)
          = [prev] :: (i :: g1) :: gs1 := by
        conv_lhs => rw [gapGroups, hshape]
        simp [hle]
      rw [hgg] at h
      obtain ⟨h1, h2⟩ := (List.cons.injEq _ _ _ _).mp h
      have hg : g = [] := by
        have := ((List.cons.injEq _ _ _ _).mp h1).2
        simpa using this.symm
      have hprev : i - prev > 2 := by omega
      rw [hg, ← h2]
      simp only [runsAux, if_pos hprev]
      rw [ih i i g1 gs1 hshape]
      simp

/-- C1: for every list of per-frame match scores, `get_index_pairs` merges
the ascending matched indices into runs in which consecutive matched
indices share a run exactly when their gap is at most 2 (the spec-side
`specRuns` grouping), returning exactly the `(start, end)` pairs of those
runs; in particular, on the match flags `[1,1,0,0,1,1,0,0,0,1]` it returns
exactly `[(0,1), (4,5), (9,9)]`. -/
theorem get_index_pairs_merges_gap_le_two_runs :
    (∀ {α : Type} (truthy : α → Bool) (scores : List α),
      get_index_pairs truthy scores = specRuns (indexesOf truthy scores)) ∧
    get_index_pairs id
        [true, true, false, false, true, true, false, false, false, true]
      = [(0, 1), (4, 5), (9, 9)] := by
  constructor
  · intro α truthy scores
    unfold get_index_pairs specRuns
    cases h : indexesOf truthy scores with
    | nil => simp [gapGroups]
    | cons i rest =>
      obtain ⟨g, gs, hshape⟩ := gapGroups_cons_shape i rest
      show runsAux i i rest = _
      rw [hshape, runsAux_eq_spec rest i i g gs hshape]
      simp
  · decide

/-- C4: for a path with a stored record, `delete_image_if_outdated` (and
`delete_video_if_outdated`, whose `modify_time` argument the scanner fills
with the current file time) returns `true` and leaves the store unchanged
exactly when the stored modify time equals the current file modify time;
on a mismatch the record (for videos: every frame row of the path) is
deleted and `false` is returned; with no record nothing is deleted and
`false` is returned. -/
theorem delete_if_outdated_modify_time_check :
    ∀ {α β : Type} (fs : String → Nat) (istore : List (ImageRec α))
      (vstore : List (VideoRec β)) (istoreN : List (ImageRec α))
      (vstoreN : List (VideoRec β)) (path : String) (mt : Nat)
      (ri : ImageRec α) (rv : VideoRec β),
      istore.find? (fun r => r.path == path) = some ri →
      vstore.find? (fun r => r.path == path) = some rv →
      istoreN.find? (fun r => r.path == path) = none →
      vstoreN.find? (fun r => r.path == path) = none →
      (delete_image_if_outdated fs istore path mt =
        if ri.modify_time = fs path then (true, istore)
        else (false, istore.eraseP (fun r => r.path == path))) ∧
      (delete_image_if_outdated fs istore path mt = (true, istore) ↔
        ri.modify_time = fs path) ∧
      (delete_video_if_outdated vstore path (fs path) =
        if rv.modify_time = fs path then (true, vstore)
        else (false, vstore.filter (fun r => !(r.path == path)))) ∧
      (delete_video_if_outdated vstore path (fs path) = (true, vstore) ↔
        rv.modify_time = fs path) ∧
      delete_image_if_outdated fs istoreN path mt = (false, istoreN) ∧
      delete_video_if_outdated vstoreN path mt = (false, vstoreN) := by
  intro α β fs istore vstore istoreN vstoreN path mt ri rv hI hV hNI hNV
  refine ⟨?_, ?_, ?_, ?_, ?_, ?_⟩
  · unfold delete_image_if_outdated
    rw [hI]
  · unfold delete_image_if_outdated
    rw [hI]
    by_cases hmt : ri.modify_time = fs path <;> simp [hmt]
  · unfold delete_video_if_outdated
    rw [hV]
  · unfold delete_video_if_outdated
    rw [hV]
    by_cases hmt : rv.modify_time = fs path <;> simp [hmt]
  · unfold delete_image_if_outdated
    rw [hNI]
  · unfold delete_video_if_outdated
    rw [hNV]

/-- Witness for C4 at a concrete store: path `a` stored with time 5 while
the file time is 5 (image: unchanged, `true`) and a video row with stored
time 7 against file time 5 (changed: all rows of the path deleted), plus
the no-record case on empty stores. -/
theorem delete_if_outdated_modify_time_check_witness :
    delete_image_if_outdated (fun _ => 5) [⟨1, "a", 5, (0 : Nat)⟩] "a" 5
      = (true, [⟨1, "a", 5, 0⟩]) ∧
    delete_video_if_outdated [⟨"a", 0, 7, (0 : Nat)⟩] "a" 5 = (false, []) ∧
    delete_image_if_outdated (fun _ => 5) ([] : List (ImageRec Nat)) "a" 5
      = (false, []) ∧
    delete_video_if_outdated ([] : List (VideoRec Nat)) "a" 5
      = (false, []) := by
  have h := delete_if_outdated_modify_time_check (fun _ => 5)
    [⟨1, "a", 5, (0 : Nat)⟩] [⟨"a", 0, 7, (0 : Nat)⟩]
    ([] : List (ImageRec Nat)) ([] : List (VideoRec Nat)) "a" 5
    ⟨1, "a", 5, 0⟩ ⟨"a", 0, 7, 0⟩ rfl rfl rfl rfl
  refine ⟨?_, ?_, h.2.2.2.2.1, h.2.2.2.2.2⟩
  · have h1 := h.1
    simpa using h1
  · have h3 := h.2.2.1
    simpa using h3

/-- C5: `delete_record_if_not_exist` keeps an Image or Video record exactly
when it was present before and its path belongs to `assets`; the surviving
records are the untouched originals, in their original order. -/
theorem delete_record_if_not_exist_reconciles :
    ∀ {α : Type} (assets : List String) (s : StoreState α),
      (∀ r : ImageRec α,
        r ∈ (delete_record_if_not_exist assets s).images ↔
          r ∈ s.images ∧ r.path ∈ assets) ∧
      (∀ v : VideoRec α,
        v ∈ (delete_record_if_not_exist assets s).videos ↔
          v ∈ s.videos ∧ v.path ∈ assets) ∧
      (delete_record_if_not_exist assets s).images.Sublist s.images ∧
      (delete_record_if_not_exist assets s).videos.Sublist s.videos := by
  intro α assets s
  refine ⟨fun r => ?_, fun v => ?_, ?_, ?_⟩
  · simp [delete_record_if_not_exist, List.mem_filter]
  · simp [delete_record_if_not_exist, List.mem_filter]
  · exact List.filter_sublist _
  · exact List.filter_sublist _

/-- Adding a half before truncating rounds an integer half to the ceiling:
`int(n/2 + 0.5)` is the midpoint rounded up. -/
theorem floor_half_add_half (n : ℤ) :
    ⌊(n : ℚ) / 2 + 1 / 2⌋ = ⌈(n : ℚ) / 2⌉ := by
  have h1 : (n : ℚ) / 2 + 1 / 2 = ((n + 1 : ℤ) : ℚ) / ((2 : ℕ) : ℚ) := by
    push_cast
    ring
  have h2 : ⌈(n : ℚ) / 2⌉ = -⌊-((n : ℚ) / 2)⌋ := by
    rw [Int.floor_neg]
    simp
  have h3 : -((n : ℚ) / 2) = ((-n : ℤ) : ℚ) / ((2 : ℕ) : ℚ) := by
    push_cast
    ring
  rw [h1, Rat.floor_intCast_div_natCast, h2, h3, Rat.floor_intCast_div_natCast]
  omega

/-- C6: over nonnegative (in particular strictly increasing) integer frame
times, `get_video_range` maps a run `(start_index, end_index)` to the
integer-truncated midpoint of the first matched frame time and its
predecessor (or the first frame time itself when `start_index = 0`), and
to the rounded-up midpoint of the last matched frame time and its
successor (or that frame time itself when no frame follows). -/
theorem get_video_range_is_half_interval_extension :
    ∀ {α : Type} (start_index end_index : Nat) (scores : List α)
      (frame_times : List Int),
      scores.length = frame_times.length →
      start_index ≤ end_index →
      end_index < frame_times.length →
      (∀ t ∈ frame_times, 0 ≤ t) →
      get_video_range start_index end_index scores frame_times =
        ((if start_index = 0 then frame_times.getD start_index 0
          else
            ⌊((frame_times.getD start_index 0 +
                frame_times.getD (start_index - 1) 0 : Int) : ℚ) / 2⌋),
          (if end_index + 1 < frame_times.length then
            ⌈((frame_times.getD end_index 0 +
                frame_times.getD (end_index + 1) 0 : Int) : ℚ) / 2⌉
          else frame_times.getD end_index 0)) := by
  intro α si ei scores ft hlen hse hei hnn
  have hnnD : ∀ i, (0 : ℤ) ≤ ft.getD i 0 := by
    intro i
    by_cases hi : i < ft.length
    · rw [List.getD_eq_getElem ft 0 hi]
      exact hnn _ (List.getElem_mem hi)
    · rw [List.getD_eq_default ft 0 (by omega)]
  unfold get_video_range
  simp only [Prod.mk.injEq]
  constructor
  · by_cases hsi : si = 0
    · simp [hsi]
    · have h0 : 0 < si := Nat.pos_of_ne_zero hsi
      simp only [if_pos h0, if_neg hsi]
      have hq : ¬ ((((ft.getD si 0 + ft.getD (si - 1) 0 : Int) : ℚ) / 2) < 0) := by
        have h1 := hnnD si
        have h2 := hnnD (si - 1)
        have hsum : (0 : ℤ) ≤ ft.getD si 0 + ft.getD (si - 1) 0 := by omega
        rw [not_lt]
        apply div_nonneg _ (by norm_num)
        exact_mod_cast hsum
      unfold pyInt
      rw [if_neg hq]
  · have hcond : (ei < scores.length - 1) ↔ (ei + 1 < ft.length) := by
      rw [hlen]
      constructor
      · intro h
        omega
      · intro h
        omega
    by_cases hend : ei + 1 < ft.length
    · rw [if_pos (hcond.mpr hend), if_pos hend]
      have hq : ¬ ((((ft.getD ei 0 + ft.getD (ei + 1) 0 : Int) : ℚ) / 2 + 1 / 2) < 0) := by
        have h1 := hnnD ei
        have h2 := hnnD (ei + 1)
        have hsum : (0 : ℤ) ≤ ft.getD ei 0 + ft.getD (ei + 1) 0 := by omega
        rw [not_lt]
        have hhalf : (0 : ℚ) ≤ (((ft.getD ei 0 + ft.getD (ei + 1) 0 : Int) : ℚ)) / 2 := by
          apply div_nonneg _ (by norm_num)
          exact_mod_cast hsum
        linarith
      unfold pyInt
      rw [if_neg hq, floor_half_add_half]
    · rw [if_neg (fun hcl => hend (hcond.mp hcl)), if_neg hend]

/-- Truncating the half of an even or odd integer is integer division. -/
theorem floor_intCast_div_two (n : ℤ) : ⌊(n : ℚ) / 2⌋ = n / 2 := by
  have h1 : (n : ℚ) / 2 = ((n : ℤ) : ℚ) / ((2 : ℕ) : ℚ) := by
    push_cast
    ring
  rw [h1, Rat.floor_intCast_div_natCast]
  norm_num

/-- The rounded-up half of an integer. -/
theorem ceil_intCast_div_two (n : ℤ) : ⌈(n : ℚ) / 2⌉ = (n + 1) / 2 := by
  rw [← floor_half_add_half]
  have h1 : (n : ℚ) / 2 + 1 / 2 = ((n + 1 : ℤ) : ℚ) / ((2 : ℕ) : ℚ) := by
    push_cast
    ring
  rw [h1, Rat.floor_intCast_div_natCast]
  norm_num

/-- Witness for C6: a run `(1, 1)` over frame times `[0, 4, 10]` starts at
`(4 + 0) / 2 = 2` and ends at the rounded-up midpoint `(4 + 10) / 2 = 7`. -/
theorem get_video_range_is_half_interval_extension_witness :
    get_video_range 1 1 ([0, 0, 0] : List Nat) ([0, 4, 10] : List Int)
      = (2, 7) := by
  have h := get_video_range_is_half_interval_extension 1 1
    ([0, 0, 0] : List Nat) ([0, 4, 10] : List Int) rfl (by omega)
    (by decide) (by decide)
  rw [h]
  simp only [List.getD_cons_succ, List.getD_cons_zero]
  norm_num [floor_intCast_div_two, ceil_intCast_div_two]

/-- C7 (code defect): for an argument that does not parse as an integer,
`search_image_by_image` and `search_video_by_image` do not embed the
argument as a path — the `except ValueError` branch assigns only
`img_path`, so the subsequent `if img_id:` test reads the unbound local
`img_id` and raises `UnboundLocalError`. -/
theorem search_by_image_path_branch_raises :
    ∀ (store : List (ImageRec (List ℝ)))
      (vstore : List (String × List (Int × List ℝ)))
      (emb : String → List ℝ) (t : ℝ),
      search_image_by_image store emb (.str "/tmp/upload/cat.jpg") t
        = .error .unboundLocalError ∧
      search_video_by_image vstore store emb (.str "/tmp/upload/cat.jpg") t
        = .error .unboundLocalError := by
  intro store vstore emb t
  exact ⟨rfl, rfl⟩

/-- C8 counterexample: the integer id `0` has no Image record in the empty
store, yet `search_image_by_image` and `search_video_by_image` raise
`UnboundLocalError` (the falsy id falls through to `elif img_path:` where
`img_path` is unbound) instead of returning the empty list. -/
theorem search_by_image_id_zero_raises :
    search_image_by_image [] (fun _ => []) (.int 0) 85
      = .error .unboundLocalError ∧
    search_video_by_image [] [] (fun _ => []) (.int 0) 85
      = .error .unboundLocalError := by
  exact ⟨rfl, rfl⟩

/-- C8 (amended): for every nonzero integer id with no Image record in the
store, `search_image_by_image` and `search_video_by_image` return the
empty list and raise no exception. -/
theorem search_by_image_missing_nonzero_id_yields_empty :
    ∀ (store : List (ImageRec (List ℝ)))
      (vstore : List (String × List (Int × List ℝ)))
      (emb : String → List ℝ) (t : ℝ) (n : Int),
      n ≠ 0 →
      store.find? (fun r => r.id == n) = none →
      search_image_by_image store emb (.int n) t = .ok [] ∧
      search_video_by_image vstore store emb (.int n) t = .ok [] := by
  intro store vstore emb t n hn hfind
  have hfeat : get_image_features_by_id store n = none := by
    unfold get_image_features_by_id
    rw [hfind]
    rfl
  constructor
  · unfold search_image_by_image
    simp [pyTryInt, hn, hfeat]
  · unfold search_video_by_image
    simp [pyTryInt, hn, hfeat]

/-- Witness for C8 (amended): id `5` against the empty store. -/
theorem search_by_image_missing_nonzero_id_yields_empty_witness :
    search_image_by_image [] (fun _ => []) (.int 5) 85 = .ok [] ∧
    search_video_by_image [] [] (fun _ => []) (.int 5) 85 = .ok [] :=
  search_by_image_missing_nonzero_id_yields_empty [] [] (fun _ => []) 85 5
    (by decide) rfl

/-- C10: the `api_get_video` endpoint serves a file only for a decoded
path that is the path of a stored Video record; a decoded path absent from
the store is answered with 404 and no file, and an undecodable parameter
propagates as an error, serving no file either. -/
theorem api_get_video_serves_only_stored_paths :
    ∀ (store : List (List Nat)) (s1 s2 s3 : String) (p q : List Nat),
      urlsafe_b64decode s1 = some p →
      p ∈ store →
      urlsafe_b64decode s2 = some q →
      q ∉ store →
      urlsafe_b64decode s3 = none →
      api_get_video store s1 = .fileResponse p ∧
      api_get_video store s2 = .notFound ∧
      api_get_video store s3 = .serverError := by
  intro store s1 s2 s3 p q h1 hp h2 hq h3
  refine ⟨?_, ?_, ?_⟩ <;> unfold api_get_video
  · rw [h1]
    simp [hp]
  · rw [h2]
    simp [hq]
  · rw [h3]

/-- Witness for C10: with only the path `a` (bytes `[97]`) stored,
`YQ==` (decoding to `a`) is served, `Yg==` (decoding to `b`) gets 404,
and the undecodable parameter `A` errors. -/
theorem api_get_video_serves_only_stored_paths_witness :
    api_get_video [[97]] "YQ==" = .fileResponse [97] ∧
    api_get_video [[97]] "Yg==" = .notFound ∧
    api_get_video [[97]] "A" = .serverError :=
  api_get_video_serves_only_stored_paths [[97]] "YQ==" "Yg==" "A" [97] [98]
    (by decide) (by decide) (by decide) (by decide) (by decide)

/-- Removing at least one element that fails the predicate makes the
filtered list strictly shorter. -/
theorem filter_length_lt_of_mem_not {α : Type} (p : α → Bool) :
    ∀ (l : List α) (x : α), x ∈ l → p x = false →
      (l.filter p).length < l.length := by
  intro l
  induction l with
  | nil => simp
  | cons a t ih =>
    intro x hx hp
    rcases List.mem_cons.mp hx with h | h
    · subst h
      rw [List.filter_cons, if_neg (by simp [hp])]
      have := List.length_filter_le p t
      simp
      omega
    · rw [List.filter_cons]
      by_cases hpa : p a = true
      · rw [if_pos (by simp [hpa])]
        have := ih x h hp
        simp
        omega
      · rw [if_neg (by simpa using hpa)]
        have := List.length_filter_le p t
        simp
        omega

/-- A cache hit under well-formedness returns the memoised function value. -/
theorem lruLookup_eq_f {κ ν : Type} [DecidableEq κ] {f : κ → ν}
    {c : LruCache κ ν} (hwf : LruWF f c) {k : κ} {v : ν}
    (h : lruLookup c k = some v) : v = f k := by
  unfold lruLookup at h
  cases hf : c.entries.find? (fun e => decide (e.1 = k)) with
  | none =>
    rw [hf] at h
    simp at h
  | some e =>
    rw [hf] at h
    have h2 : e.2 = v := by simpa using h
    have he := List.mem_of_find?_eq_some hf
    have hk : e.1 = k := by simpa using List.find?_some hf
    rw [← h2, hwf e he, hk]

/-- One memoised call always returns the function value for its own key. -/
theorem memoCall_val {κ ν : Type} [DecidableEq κ] (f : κ → ν) (cap : Nat)
    (c : LruCache κ ν) (k : κ) (hwf : LruWF f c) :
    (memoCall f cap c k).1 = f k := by
  unfold memoCall
  cases h : lruLookup c k with
  | some v => exact lruLookup_eq_f hwf h
  | none => rfl

/-- A memoised call preserves cache well-formedness. -/
theorem memoCall_wf {κ ν : Type} [DecidableEq κ] (f : κ → ν) (cap : Nat)
    (c : LruCache κ ν) (k : κ) (hwf : LruWF f c) :
    LruWF f (memoCall f cap c k).2.1 := by
  unfold memoCall
  cases h : lruLookup c k with
  | some v =>
    intro e he
    rcases List.mem_cons.mp he with h1 | h1
    · rw [h1]
      exact lruLookup_eq_f hwf h
    · exact hwf e (List.mem_of_mem_filter h1)
  | none =>
    intro e he
    have he2 := List.mem_of_mem_take he
    rcases List.mem_cons.mp he2 with h1 | h1
    · rw [h1]
    · exact hwf e (List.mem_of_mem_filter h1)

/-- With positive capacity, the key just called is cached afterwards with
the value just returned. -/
theorem lruLookup_memoCall_self {κ ν : Type} [DecidableEq κ] (f : κ → ν)
    (cap : Nat) (hcap : 0 < cap) (c : LruCache κ ν) (k : κ) :
    lruLookup (memoCall f cap c k).2.1 k = some (memoCall f cap c k).1 := by
  unfold memoCall
  cases h : lruLookup c k with
  | some v =>
    show ((((k, v) :: c.entries.filter (fun e => !decide (e.1 = k))).find?
        (fun e => decide (e.1 = k))).map (fun e => e.2)) = some v
    rw [List.find?_cons_of_pos _ (by simp)]
    rfl
  | none =>
    obtain ⟨m, hm⟩ : ∃ m, cap = m + 1 := ⟨cap - 1, by omega⟩
    subst hm
    show (((((k, f k) ::
        c.entries.filter (fun e => !decide (e.1 = k))).take (m + 1)).find?
        (fun e => decide (e.1 = k))).map (fun e => e.2)) = some (f k)
    rw [List.take_succ_cons, List.find?_cons_of_pos _ (by simp)]
    rfl

/-- A call whose key is cached is a hit: the cached value is returned and
the function is not re-invoked. -/
theorem memoCall_hit {κ ν : Type} [DecidableEq κ] (f : κ → ν) (cap : Nat)
    (c : LruCache κ ν) (k : κ) (w : ν) (h : lruLookup c k = some w) :
    (memoCall f cap c k).1 = w ∧ (memoCall f cap c k).2.2 = false := by
  unfold memoCall
  rw [h]
  exact ⟨rfl, rfl⟩

/-- A memoised call never grows the cache beyond its capacity. -/
theorem memoCall_capacity {κ ν : Type} [DecidableEq κ] (f : κ → ν)
    (cap : Nat) (c : LruCache κ ν) (k : κ)
    (hlen : c.entries.length ≤ cap) :
    ((memoCall f cap c k).2.1).entries.length ≤ cap := by
  unfold memoCall
  cases h : lruLookup c k with
  | some v =>
    show ((k, v) :: c.entries.filter (fun e => !decide (e.1 = k))).length ≤ cap
    have hfind : ∃ e, c.entries.find? (fun e => decide (e.1 = k)) = some e := by
      unfold lruLookup at h
      cases hf : c.entries.find? (fun e => decide (e.1 = k)) with
      | none => rw [hf] at h; simp at h
      | some e => exact ⟨e, rfl⟩
    obtain ⟨e, hf⟩ := hfind
    have he := List.mem_of_find?_eq_some hf
    have hk : e.1 = k := by simpa using List.find?_some hf
    have hlt := filter_length_lt_of_mem_not
      (fun e => !decide (e.1 = k)) c.entries e he (by simp [hk])
    simp
    omega
  | none =>
    show (((k, f k) ::
        c.entries.filter (fun e => !decide (e.1 = k))).take cap).length ≤ cap
    simp [List.length_take]

/-- C9: each memoised search function, modelled as lru memoisation keyed by
the full argument tuple: under well-formedness (every cached value was
computed by the function for its own key — so a cached result is never one
computed for a different argument tuple), a call returns the function
value and preserves well-formedness and the capacity bound; a second call
with identical arguments immediately after does not re-invoke the function
and returns the same result; `clean_cache` empties all six search caches,
and a call on an emptied cache does re-invoke the function. -/
theorem memoised_search_cache_semantics :
    ∀ {κ ν κ₂ ν₂ : Type} [_inst : DecidableEq κ] (f : κ → ν) (cap : Nat)
      (c : LruCache κ ν) (k : κ) (C : SearchCaches κ₂ ν₂),
      0 < cap → LruWF f c → c.entries.length ≤ cap →
      (memoCall f cap c k).1 = f k ∧
      LruWF f (memoCall f cap c k).2.1 ∧
      ((memoCall f cap c k).2.1).entries.length ≤ cap ∧
      (memoCall f cap (memoCall f cap c k).2.1 k).2.2 = false ∧
      (memoCall f cap (memoCall f cap c k).2.1 k).1 = f k ∧
      (clean_cache C).image_by_text.entries = [] ∧
      (clean_cache C).image_by_image.entries = [] ∧
      (clean_cache C).image_file.entries = [] ∧
      (clean_cache C).video_by_text.entries = [] ∧
      (clean_cache C).video_by_image.entries = [] ∧
      (clean_cache C).video_file.entries = [] ∧
      (memoCall f cap ⟨[]⟩ k).2.2 = true ∧
      (memoCall f cap ⟨[]⟩ k).1 = f k := by
  intro κ ν κ₂ ν₂ _inst f cap c k C hcap hwf hlen
  have hself := lruLookup_memoCall_self f cap hcap c k
  have hsecond := memoCall_hit f cap (memoCall f cap c k).2.1 k
    (memoCall f cap c k).1 hself
  refine ⟨memoCall_val f cap c k hwf, memoCall_wf f cap c k hwf,
    memoCall_capacity f cap c k hlen, hsecond.2, ?_, rfl, rfl, rfl, rfl, rfl,
    rfl, rfl, rfl⟩
  rw [hsecond.1]
  exact memoCall_val f cap c k hwf

/-- Witness for C9 at a concrete cache: `f n = n + 1`, capacity 2, key 3,
empty starting cache, and a nonempty bundle of six search caches. -/
theorem memoised_search_cache_semantics_witness :
    (memoCall (fun n => n + 1) 2 (⟨[]⟩ : LruCache Nat Nat) 3).1 = 3 + 1 ∧
    LruWF (fun n => n + 1)
      (memoCall (fun n => n + 1) 2 (⟨[]⟩ : LruCache Nat Nat) 3).2.1 ∧
    ((memoCall (fun n => n + 1) 2 (⟨[]⟩ : LruCache Nat Nat) 3).2.1).entries.length ≤ 2 ∧
    (memoCall (fun n => n + 1) 2
      (memoCall (fun n => n + 1) 2 (⟨[]⟩ : LruCache Nat Nat) 3).2.1 3).2.2 = false ∧
    (memoCall (fun n => n + 1) 2
      (memoCall (fun n => n + 1) 2 (⟨[]⟩ : LruCache Nat Nat) 3).2.1 3).1 = 3 + 1 ∧
    (clean_cache (⟨⟨[(7, 9)]⟩, ⟨[]⟩, ⟨[]⟩, ⟨[]⟩, ⟨[]⟩, ⟨[]⟩⟩ :
      SearchCaches Nat Nat)).image_by_text.entries = [] ∧
    (clean_cache (⟨⟨[(7, 9)]⟩, ⟨[]⟩, ⟨[]⟩, ⟨[]⟩, ⟨[]⟩, ⟨[]⟩⟩ :
      SearchCaches Nat Nat)).image_by_image.entries = [] ∧
    (clean_cache (⟨⟨[(7, 9)]⟩, ⟨[]⟩, ⟨[]⟩, ⟨[]⟩, ⟨[]⟩, ⟨[]⟩⟩ :
      SearchCaches Nat Nat)).image_file.entries = [] ∧
    (clean_cache (⟨⟨[(7, 9)]⟩, ⟨[]⟩, ⟨[]⟩, ⟨[]⟩, ⟨[]⟩, ⟨[]⟩⟩ :
      SearchCaches Nat Nat)).video_by_text.entries = [] ∧
    (clean_cache (⟨⟨[(7, 9)]⟩, ⟨[]⟩, ⟨[]⟩, ⟨[]⟩, ⟨[]⟩, ⟨[]⟩⟩ :
      SearchCaches Nat Nat)).video_by_image.entries = [] ∧
    (clean_cache (⟨⟨[(7, 9)]⟩, ⟨[]⟩, ⟨[]⟩, ⟨[]⟩, ⟨[]⟩, ⟨[]⟩⟩ :
      SearchCaches Nat Nat)).video_file.entries = [] ∧
    (memoCall (fun n => n + 1) 2 (⟨[]⟩ : LruCache Nat Nat) 3).2.2 = true ∧
    (memoCall (fun n => n + 1) 2 (⟨[]⟩ : LruCache Nat Nat) 3).1 = 3 + 1 :=
  memoised_search_cache_semantics (fun n => n + 1) 2 ⟨[]⟩ 3
    ⟨⟨[(7, 9)]⟩, ⟨[]⟩, ⟨[]⟩, ⟨[]⟩, ⟨[]⟩, ⟨[]⟩⟩ (by omega)
    (by intro e he; simp at he) (by simp)

/-- Dividing every element before summing divides the sum. -/
theorem sum_map_div (m : List ℝ) (S : ℝ) :
    (m.map (fun e => e / S)).sum = m.sum / S := by
  induction m with
  | nil => simp
  | cons a t ih => simp [ih, add_div]

/-- The exponential weights of a nonempty score list have positive sum. -/
theorem sum_map_exp_pos (l : List ℝ) (hl : l ≠ []) :
    0 < (l.map Real.exp).sum := by
  cases l with
  | nil => exact absurd rfl hl
  | cons a t =>
    simp only [List.map_cons, List.sum_cons]
    have h1 : (0 : ℝ) ≤ (t.map Real.exp).sum := by
      apply List.sum_nonneg
      intro x hx
      obtain ⟨v, _, rfl⟩ := List.mem_map.mp hx
      exact (Real.exp_pos v).le
    have h2 := Real.exp_pos a
    linarith

/-- The softmax outputs of a nonempty list sum to exactly 1. -/
theorem softmax_sum_eq_one (l : List ℝ) (hl : l ≠ []) :
    (softmax l).sum = 1 := by
  unfold softmax
  rw [sum_map_div]
  exact div_self (ne_of_gt (sum_map_exp_pos l hl))

/-- Every softmax output of a nonempty list lies in `(0, 1]`. -/
theorem softmax_mem_Ioc (l : List ℝ) (hl : l ≠ []) :
    ∀ y ∈ softmax l, 0 < y ∧ y ≤ 1 := by
  intro y hy
  unfold softmax at hy
  obtain ⟨e, he, rfl⟩ := List.mem_map.mp hy
  have hS := sum_map_exp_pos l hl
  have hpos : 0 < e := by
    obtain ⟨v, _, rfl⟩ := List.mem_map.mp he
    exact Real.exp_pos v
  refine ⟨div_pos hpos hS, ?_⟩
  rw [div_le_one hS]
  apply List.single_le_sum _ _ he
  intro x hx
  obtain ⟨w, _, rfl⟩ := List.mem_map.mp hx
  exact (Real.exp_pos w).le

/-- Every element of the kept-score list is a non-falsy score present in
the match output. -/
theorem mem_keptScores {scores : List (Option ℝ)} {x : ℝ}
    (h : x ∈ keptScores scores) : some x ∈ scores ∧ x ≠ 0 := by
  unfold keptScores at h
  obtain ⟨a, ha, hax⟩ := List.mem_filterMap.mp h
  have ha2 := List.mem_of_mem_filter ha
  have htr := List.of_mem_filter ha
  cases a with
  | none => simp at hax
  | some v =>
    have hv : v = x := by simpa using hax
    subst hv
    refine ⟨ha2, ?_⟩
    simpa [pyTruthy] using htr

/-- Every kept match score is a threshold-passing cosine score of one of
the candidates. -/
theorem mem_match_batch_some {pos : List ℝ} {neg : Option (List ℝ)}
    {fs : List (List ℝ)} {pt nt : ℝ} {x : ℝ}
    (h : some x ∈ match_batch pos neg fs pt nt) :
    ∃ f, f ∈ fs ∧ x = cosine pos f * 100 ∧ pt ≤ x ∧
      negSideOk neg f nt = true := by
  unfold match_batch at h
  obtain ⟨f, hf, hfx⟩ := List.mem_map.mp h
  by_cases hc : (decide (pt ≤ cosine pos f * 100) && negSideOk neg f nt) = true
  · rw [if_pos hc] at hfx
    have hx : cosine pos f * 100 = x := by simpa using hfx
    obtain ⟨h1, h2⟩ := Bool.and_eq_true_iff.mp hc
    exact ⟨f, hf, hx.symm, hx ▸ of_decide_eq_true h1, h2⟩
  · rw [if_neg hc] at hfx
    simp at hfx

/-- Image records all carrying feature vectors of one dimension `D` make
the scan-side reshape succeed with unknown dimension `D`. -/
theorem reshape_ok_of_uniform (store : List (ImageRec (List ℝ))) (D : Nat)
    (hD : ∀ r ∈ store, r.feature.length = D) (hne : store ≠ []) :
    numpyReshapeUnknown ((store.map (fun r => r.feature)).map List.length).sum
      (store.map (fun r => r.feature)).length = .ok D := by
  have hmap : (store.map (fun r => r.feature)).map List.length
      = List.replicate store.length D := by
    rw [List.map_map, List.eq_replicate_iff]
    refine ⟨by simp, ?_⟩
    intro b hb
    obtain ⟨r, hr, rfl⟩ := List.mem_map.mp hb
    exact hD r hr
  rw [hmap, List.sum_replicate, List.length_map, smul_eq_mul]
  have hn : store.length ≠ 0 := by
    intro h0
    exact hne (List.length_eq_zero.mp h0)
  unfold numpyReshapeUnknown
  rw [if_neg hn, if_pos (Nat.mul_mod_right store.length D)]
  rw [Nat.mul_div_cancel_left D (Nat.pos_of_ne_zero hn)]

/-- C2 counterexample: a single kept score produces the softmax output
`[1.0]`, and `1` is not strictly below `1` — the outputs are not all
strictly inside `(0, 1)`. -/
theorem softmax_singleton_output_is_one :
    softmax [(0 : ℝ)] = [1] ∧ ¬ ((1 : ℝ) < 1) := by
  constructor
  · unfold softmax
    simp
  · norm_num

/-- C2 (amended): dropped candidates never enter the softmax input — every
kept score is a non-falsy entry of the match output and a
threshold-passing cosine score; for every nonempty kept-score list the
softmax outputs all lie in `(0, 1]` (exactly `1.0` for a singleton) and
sum to 1 exactly, hence within `1e-6`; an empty kept set yields the empty
result list, not a division error, for both the image and the video
search. -/
theorem softmax_over_kept_scores_properties :
    ∀ (l : List ℝ) (scores : List (Option ℝ))
      (store : List (ImageRec (List ℝ))) (pos pos2 : List ℝ)
      (neg neg2 : Option (List ℝ)) (pt nt pt2 nt2 : ℝ)
      (fs2 : List (List ℝ)) (D : Nat),
      l ≠ [] →
      (∀ r ∈ store, r.feature.length = D) →
      store ≠ [] →
      keptScores (match_batch pos neg (store.map (fun r => r.feature)) pt nt)
        = [] →
      (softmax l).Forall (fun y => 0 < y ∧ y ≤ 1) ∧
      (softmax l).sum = 1 ∧
      |(softmax l).sum - 1| ≤ 1 / 1000000 ∧
      (keptScores scores).Forall (fun x => some x ∈ scores ∧ x ≠ 0) ∧
      (keptScores (match_batch pos2 neg2 fs2 pt2 nt2)).Forall
        (fun x => ∃ f, f ∈ fs2 ∧ x = cosine pos2 f * 100 ∧ pt2 ≤ x ∧
          negSideOk neg2 f nt2 = true) ∧
      softmax [] = [] ∧
      search_image_by_feature store pos neg pt nt = .ok [] ∧
      search_video_by_feature [] pos neg pt nt = .ok [] := by
  intro l scores store pos pos2 neg neg2 pt nt pt2 nt2 fs2 D hl hD hne hkept
  refine ⟨?_, softmax_sum_eq_one l hl, ?_, ?_, ?_, rfl, ?_, rfl⟩
  · exact List.forall_iff_forall_mem.mpr (softmax_mem_Ioc l hl)
  · rw [softmax_sum_eq_one l hl]
    norm_num
  · exact List.forall_iff_forall_mem.mpr (fun x hx => mem_keptScores hx)
  · exact List.forall_iff_forall_mem.mpr
      (fun x hx => mem_match_batch_some (mem_keptScores hx).1)
  · unfold search_image_by_feature
    dsimp only
    rw [reshape_ok_of_uniform store D hD hne]
    dsimp only
    rw [if_neg (fun h0 => hne (List.length_eq_zero.mp h0))]
    rw [hkept]
    simp [softmax, sortByScoreDesc, List.zip_nil_right]

/-- The cosine similarity of the one-dimensional unit features. -/
theorem cosine_one_one : cosine [(1 : ℝ)] [(1 : ℝ)] = 1 := by
  unfold cosine dotf vnorm
  norm_num [Real.sqrt_one]

/-- With threshold 200 the unit candidate is dropped by the batch match. -/
theorem match_batch_unit_dropped :
    match_batch [(1 : ℝ)] none [[(1 : ℝ)]] 200 10 = [none] := by
  have hd : decide ((200 : ℝ) ≤ cosine [(1 : ℝ)] [(1 : ℝ)] * 100) = false := by
    rw [cosine_one_one]
    apply decide_eq_false
    norm_num
  unfold match_batch negSideOk
  simp [hd]
  rw [cosine_one_one]
  norm_num

/-- Witness for C2 at a concrete query: one stored unit feature, positive
threshold 200, so the kept set is empty and the image search returns the
empty list; the softmax facts are instanced at the list `[0]`. -/
theorem softmax_over_kept_scores_properties_witness :
    (softmax [(0 : ℝ)]).Forall (fun y => 0 < y ∧ y ≤ 1) ∧
    (softmax [(0 : ℝ)]).sum = 1 ∧
    |(softmax [(0 : ℝ)]).sum - 1| ≤ 1 / 1000000 ∧
    (keptScores [some (5 : ℝ), none]).Forall
      (fun x => some x ∈ [some (5 : ℝ), none] ∧ x ≠ 0) ∧
    (keptScores (match_batch [(1 : ℝ)] none [] 0 0)).Forall
      (fun x => ∃ f, f ∈ ([] : List (List ℝ)) ∧ x = cosine [(1 : ℝ)] f * 100 ∧
        (0 : ℝ) ≤ x ∧ negSideOk none f 0 = true) ∧
    softmax [] = [] ∧
    search_image_by_feature [⟨1, "a", 5, [(1 : ℝ)]⟩] [(1 : ℝ)] none 200 10
      = .ok [] ∧
    search_video_by_feature [] [(1 : ℝ)] none 200 10 = .ok [] := by
  have hkept : keptScores (match_batch [(1 : ℝ)] none
      (List.map (fun r => r.feature)
        [(⟨1, "a", 5, [(1 : ℝ)]⟩ : ImageRec (List ℝ))]) 200 10) = [] := by
    rw [show List.map (fun r => r.feature)
        [(⟨1, "a", 5, [(1 : ℝ)]⟩ : ImageRec (List ℝ))] = [[(1 : ℝ)]] from rfl]
    rw [match_batch_unit_dropped]
    simp [keptScores, pyTruthy]
  exact softmax_over_kept_scores_properties [(0 : ℝ)] [some (5 : ℝ), none]
    [⟨1, "a", 5, [(1 : ℝ)]⟩] [(1 : ℝ)] [(1 : ℝ)] none none 200 10 0 0 [] 1
    (by simp)
    (by intro r hr; rw [List.mem_singleton] at hr; subst hr; rfl)
    (by simp) hkept

/-- C3 (code defect): with zero image records the source reshapes the
joined feature buffer with `reshape(0, -1)` BEFORE its own emptiness
check, so `search_image_by_feature` raises the numpy `ValueError` instead of
returning the empty list. -/
theorem search_image_by_feature_empty_store_errors :
    ∀ (pos : List ℝ) (neg : Option (List ℝ)) (pt nt : ℝ),
      search_image_by_feature [] pos neg pt nt
        = .error "cannot reshape array of size 0" := by
  intro pos neg pt nt
  rfl

end MaterialSearch
